import Mathlib

/-!
Verification development for the Chinese-to-Indonesian video dubbing pipeline.

The embedding below follows the Python sources:
  - `tts_generator.py` (`generate_speech_from_segments`): the audio track
    assembler that concatenates per-segment synthesized clips with silences;
  - `translator.py` (`translate_text`, `translate_segments`);
  - `main.py` (`run_pipeline`): the six-stage orchestrator;
  - `validator.py` (`calculate_bleu_score`, `measure_audio_sync`).

Times are rationals.  Following the source, segment times are given in
seconds and converted to milliseconds (multiplication by 1000) inside the
assembler; all audio durations are in milliseconds.  External collaborators
(gTTS, whisper, ffmpeg, the translation model) are abstracted as oracles:
a synthesis oracle returns the rendered duration of the clip produced for a
text, or `none` when synthesis failed and no clip file exists.
-/

namespace Dubbing

/-- A timed segment: `start`/`end` times in seconds (`end` is renamed `stop`
because `end` is a Lean keyword).  Mirrors the `{"start": ..., "end": ...}`
dictionaries of the Python sources. -/
structure Segment where
  start : ℚ
  stop : ℚ
deriving DecidableEq, Repr

/-- One iteration of the assembly loop of `generate_speech_from_segments`
(tts_generator.py, lines 75-106), recorded as: the duration of the silence
appended before the clip (0 when no silence is appended), the length of the
combined track at the moment the clip's audio starts, and the rendered
duration of the clip appended in full.  All durations in milliseconds. -/
structure Step where
  sil : ℚ
  clipStart : ℚ
  clipDur : ℚ
deriving DecidableEq, Repr

/-- Failure of assembly: the clip for segment `i` was not produced, so
`AudioSegment.from_file` raises and the whole function aborts
(tts_generator.py lines 93 and 114-116). -/
inductive TtsError where
  | synthesisMissing (i : ℕ)
deriving DecidableEq, Repr

/-- The assembly loop of `generate_speech_from_segments`, for the case where
every referenced clip was produced.  `t` is the current length of
`combined_audio` in milliseconds, `prevEnd` is `translated_segments[i-1]["end"] * 1000`
(`none` at the first iteration).  For `i > 0` the code appends
`AudioSegment.silent(max(0, start_time - previous_end))`; for `i = 0` it
appends silence only when `start_time > 0`; then it appends the clip's audio
in full (lines 96-106 of tts_generator.py). -/
def assembleOk (t : ℚ) (prevEnd : Option ℚ) : List (Segment × ℚ) → List Step
  | [] => []
  | (s, c) :: rest =>
    let st := 1000 * s.start
    let sil : ℚ :=
      match prevEnd with
      | some pe => max 0 (st - pe)
      | none => if st > 0 then st else 0
    ⟨sil, t + sil, c⟩ :: assembleOk (t + sil + c) (some (1000 * s.stop)) rest

/-- The assembly loop with fallible synthesis: each segment carries
`some d` (clip produced, rendered duration `d`) or `none` (clip missing).
A missing clip makes `AudioSegment.from_file` raise, which is caught at the
function level: the function returns `(None, None)` and no combined track is
exported, modelled as `Except.error`.  `i` is the loop index. -/
def assembleExc (i : ℕ) (t : ℚ) (prevEnd : Option ℚ) :
    List (Segment × Option ℚ) → Except TtsError (List Step)
  | [] => .ok []
  | (s, c?) :: rest =>
    let st := 1000 * s.start
    let sil : ℚ :=
      match prevEnd with
      | some pe => max 0 (st - pe)
      | none => if st > 0 then st else 0
    match c? with
    | none => .error (.synthesisMissing i)
    | some c =>
      (assembleExc (i + 1) (t + sil + c) (some (1000 * s.stop)) rest).map
        (fun steps => ⟨sil, t + sil, c⟩ :: steps)

/-- Assembly of a full track from segments paired with the rendered durations
of their synthesized clips: the loop starting from an empty track. -/
def assemble (xs : List (Segment × ℚ)) : List Step :=
  assembleOk 0 none xs

/-- Total duration (ms) of the combined track: the sum of everything the loop
appended, i.e. per iteration the inserted silence plus the clip's rendered
duration. -/
def totalDuration (xs : List (Segment × ℚ)) : ℚ :=
  ((assemble xs).map (fun st => st.sil + st.clipDur)).sum

/-- Sum over all clips of (rendered duration − declared target duration),
in milliseconds: the net amount by which the synthesized clips over-run
(or under-run) their target windows. -/
def overrunSum (xs : List (Segment × ℚ)) : ℚ :=
  (xs.map (fun x => x.2 - 1000 * (x.1.stop - x.1.start))).sum

/-- Drift of clip `i`: the actual position (ms) at which clip `i`'s audio
starts in the assembled track, minus its declared target start time (ms). -/
def drift (xs : List (Segment × ℚ)) (i : ℕ) : ℚ :=
  ((assemble xs).getD i ⟨0, 0, 0⟩).clipStart - 1000 * (xs.getD i (⟨0, 0⟩, 0)).1.start

/-! ## Translator (translator.py) -/

/-- A transcript segment as produced by `transcribe_audio`
(transcriber.py lines 54-60): start/end times and source-language text. -/
structure TransSeg where
  start : ℚ
  stop : ℚ
  text : String
deriving DecidableEq, Repr

/-- A translated segment as built by `translate_segments`
(translator.py lines 82-87).  `translated` is the result of the
per-segment `translate_text` call, which returns `None` when the
translation model raises (translator.py lines 38-40), so the field is an
`Option`. -/
structure TrSeg where
  start : ℚ
  stop : ℚ
  original : String
  translated : Option String
deriving DecidableEq, Repr

/-- `translate_text` (translator.py lines 14-40): a call into the external
translation model, abstracted as an oracle from the input text to
`some translation`, or `none` when the model raises and the `except`
branch returns `None`. -/
def translate_text (oracle : String → Option String) (text : String) : Option String :=
  oracle text

/-- `translate_segments` (translator.py lines 42-99): translates each
segment with `translate_text`, storing the result (possibly `None`) in the
`translated` field without checking it, and returns successfully
(`some`).  The `except` branch returning `(None, None)` is unreachable
from the per-segment translation calls, since `translate_text` never
raises; the loop itself performs no fallible operation. -/
def translate_segments (oracle : String → Option String) (segments : List TransSeg) :
    Option (List TrSeg) :=
  some (segments.map (fun s => ⟨s.start, s.stop, s.text, translate_text oracle s.text⟩))

/-! ## TTS entry point used by the pipeline (tts_generator.py) -/

/-- The result of `generate_speech(text, path)` for one segment
(tts_generator.py lines 15-36, 89): the synthesis oracle `synth` gives the
rendered duration of the clip gTTS produced for a text, or `none` when
gTTS raised and no clip file was written.  When the segment's `translated`
field is `None` (failed translation), `gTTS(text=None)` raises, so no clip
is produced. -/
def clipFor (synth : String → Option ℚ) (t : TrSeg) : Option ℚ :=
  match t.translated with
  | none => none
  | some txt => synth txt

/-- `generate_speech_from_segments` (tts_generator.py lines 38-116) at the
granularity the pipeline observes: runs the assembly loop over the
translated segments; returns the assembled steps on success (the combined
file is exported), or `none` when the loop raised because a referenced
clip was missing (the function returns `(None, None)`). -/
def generate_speech_from_segments (synth : String → Option ℚ) (tsegs : List TrSeg) :
    Option (List Step) :=
  match assembleExc 0 0 none (tsegs.map (fun t => (⟨t.start, t.stop⟩, clipFor synth t))) with
  | .ok steps => some steps
  | .error _ => none

/-! ## Pipeline orchestrator (main.py) -/

/-- `validate_output` (validator.py lines 102-199): everything after the
input checks runs inside one `try`; `internal` is the outcome of that body
(`.ok report_path`, or `.error msg` when anything inside throws).  An
internal exception is caught and the function returns `None`
(lines 197-199). -/
def validate_output (internal : Except String String) : Option String :=
  match internal with
  | .ok report => some report
  | .error _ => none

/-- The error log written by `run_pipeline`'s `except` branch
(main.py lines 159-175): the exception message, the literal stage string
the code stores, a timestamp, and the keys of `output_paths` accumulated
before the failure (the completed-stage manifest). -/
structure ErrorLog where
  error : String
  stage : String
  timestamp : String
  completedSteps : List String
deriving DecidableEq, Repr

/-- Outcome of one run of `run_pipeline`: `noRecord` when the function
returns before entering the `try` (missing input file, main.py lines
64-66: nothing is written), `manifest keys` when the metadata file is
written and the paths dict returned (success), `errorRecord e` when the
`except` branch writes the error log and returns `None`. -/
inductive RunOutcome where
  | noRecord
  | manifest (keys : List String)
  | errorRecord (e : ErrorLog)
deriving DecidableEq, Repr

/-- The environment of one run: the input file's existence and the
behavior of each external stage adapter.  `transcribe` yields a transcript
path and segment list or fails (`None, None`); `translateOracle` is the
translation model; `synth` the gTTS synthesis oracle; `align` the mux
result; `validateInternal` the outcome of `validate_output`'s `try` body. -/
structure PipelineEnv where
  inputExists : Bool
  extractAudio : Option String
  transcribe : Option (String × List TransSeg)
  translateOracle : String → Option String
  synth : String → Option ℚ
  align : Option String
  validateInternal : Except String String

/-- `run_pipeline` (main.py lines 43-175).  Mirrors the staged control
flow: early return on missing input; each stage's falsy result raises and
is caught by the single `except` branch, which writes the error log with
`"stage": "unknown"`; a falsy validation result only omits the
`validation_report` key; on success the metadata manifest is written.
`completedSteps`/`keys` record the keys of `output_paths` in insertion
order. -/
def run_pipeline (env : PipelineEnv) (now : String) : RunOutcome :=
  if env.inputExists = false then .noRecord
  else
    let base : List String := [("input_video"), ("output_dir")]
    match env.extractAudio with
    | none => .errorRecord ⟨("Audio extraction failed"), ("unknown"), now, base⟩
    | some _ =>
      let p1 := base ++ [("extracted_audio")]
      match env.transcribe with
      | none => .errorRecord ⟨("Transcription failed"), ("unknown"), now, p1⟩
      | some (_, segments) =>
        if segments.isEmpty then .errorRecord ⟨("Transcription failed"), ("unknown"), now, p1⟩
        else
          let p2 := p1 ++ [("transcript")]
          match translate_segments env.translateOracle segments with
          | none => .errorRecord ⟨("Translation failed"), ("unknown"), now, p2⟩
          | some tsegs =>
            if tsegs.isEmpty then .errorRecord ⟨("Translation failed"), ("unknown"), now, p2⟩
            else
              let p3 := p2 ++ [("translation")]
              match generate_speech_from_segments env.synth tsegs with
              | none => .errorRecord ⟨("Speech generation failed"), ("unknown"), now, p3⟩
              | some _ =>
                let p4 := p3 ++ [("indonesian_speech"), ("speech_segments")]
                match env.align with
                | none =>
                    .errorRecord ⟨("Audio-video alignment failed"), ("unknown"), now, p4⟩
                | some _ =>
                  let p5 := p4 ++ [("output_video")]
                  let p6 := match validate_output env.validateInternal with
                    | some _ => p5 ++ [("validation_report")]
                    | none => p5
                  .manifest (p6 ++ [("metadata")])

/-! ## Validator (validator.py) -/

/-- The per-pair timing deviations computed by `measure_audio_sync`
(validator.py lines 73-79): originals are enumerated, and index `i` is
scored only while `i < len(dubbed_segments)`; each deviation is the mean
of the absolute start-time and absolute end-time differences.  Pairing is
purely positional. -/
def timingDiffs : List Segment → List Segment → List ℚ
  | [], _ => []
  | _ :: _, [] => []
  | o :: os, d :: ds =>
    ((|o.start - d.start| + |o.stop - d.stop|) / 2) :: timingDiffs os ds

/-- The sync metrics reported by `measure_audio_sync`
(validator.py lines 82-92). -/
structure SyncMetrics where
  average : ℚ
  maxDiff : ℚ
  minDiff : ℚ
  compared : ℕ
deriving DecidableEq, Repr

/-- `measure_audio_sync` (validator.py lines 45-100) given the original
segments and the re-transcription of the dubbed audio (the whisper output,
supplied here as data): computes the per-pair deviations and, when at
least one pair was scored, their average, maximum and minimum; otherwise
reports an error (`none`). -/
def measure_audio_sync (original dubbed : List Segment) : Option SyncMetrics :=
  match timingDiffs original dubbed with
  | [] => none
  | d :: ds =>
    some ⟨(d :: ds).sum / ((d :: ds).length : ℚ), ds.foldl max d, ds.foldl min d,
      (d :: ds).length⟩

/-! ## Lexical overlap score (validator.py, `calculate_bleu_score`) -/

/-- Python's `str.split()` with no argument: split on runs of whitespace,
discarding empty strings.  Structural accumulator formulation over the
character list. -/
def splitWsAux : List Char → List Char → List (List Char)
  | [], acc => if acc.isEmpty then [] else [acc.reverse]
  | c :: cs, acc =>
    if c.isWhitespace then
      (if acc.isEmpty then splitWsAux cs [] else acc.reverse :: splitWsAux cs [])
    else splitWsAux cs (c :: acc)

/-- `text.lower().split()` (validator.py lines 29-30): lower-case the
string and split it into words. -/
def pywords (s : String) : List (List Char) :=
  splitWsAux (s.data.map Char.toLower) []

/-- `matches = sum(1 for w in hyp_words if w in ref_words)`
(validator.py line 33). -/
def bleu_matches (reference hypothesis : String) : ℕ :=
  ((pywords hypothesis).filter (fun w => (pywords reference).contains w)).length

/-- `precision` (validator.py line 36): the word-presence ratio, guarded
by the hypothesis word count. -/
def bleu_precision (reference hypothesis : String) : ℚ :=
  if 0 < (pywords hypothesis).length then
    (bleu_matches reference hypothesis : ℚ) / ((pywords hypothesis).length : ℚ)
  else 0

/-- `bp` (validator.py line 39): the length-ratio penalty, clamped to at
most 1 and guarded by the reference word count. -/
def brevity_penalty (reference hypothesis : String) : ℚ :=
  if 0 < (pywords reference).length then
    min 1 (((pywords hypothesis).length : ℚ) / ((pywords reference).length : ℚ))
  else 0

/-- `calculate_bleu_score` (validator.py lines 17-43). -/
def calculate_bleu_score (reference hypothesis : String) : ℚ :=
  brevity_penalty reference hypothesis * bleu_precision reference hypothesis

/-! ## Lemmas about the assembly loop -/

theorem assembleOk_length (xs : List (Segment × ℚ)) :
    ∀ (t : ℚ) (pe : Option ℚ), (assembleOk t pe xs).length = xs.length := by
  induction xs with
  | nil => intro t pe; rfl
  | cons x rest ih =>
    intro t pe
    obtain ⟨s, c⟩ := x
    simp [assembleOk, ih]

theorem assembleOk_getD_sil_succ (xs : List (Segment × ℚ)) :
    ∀ (t : ℚ) (pe : Option ℚ) (i : ℕ), i + 1 < xs.length →
      ((assembleOk t pe xs).getD (i + 1) ⟨0, 0, 0⟩).sil
        = max 0 (1000 * (xs.getD (i + 1) (⟨0, 0⟩, 0)).1.start
            - 1000 * (xs.getD i (⟨0, 0⟩, 0)).1.stop) := by
  induction xs with
  | nil => intro t pe i h; simp at h
  | cons x rest ih =>
    intro t pe i h
    obtain ⟨s, c⟩ := x
    cases i with
    | zero =>
      match rest, h with
      | (s2, c2) :: r, _ => simp [assembleOk]
    | succ j =>
      have h' : j + 1 < rest.length := by simpa using h
      simpa [assembleOk] using ih _ _ j h'

theorem assembleOk_getD_clipDur (xs : List (Segment × ℚ)) :
    ∀ (t : ℚ) (pe : Option ℚ) (i : ℕ), i < xs.length →
      ((assembleOk t pe xs).getD i ⟨0, 0, 0⟩).clipDur = (xs.getD i (⟨0, 0⟩, 0)).2 := by
  induction xs with
  | nil => intro t pe i h; simp at h
  | cons x rest ih =>
    intro t pe i h
    obtain ⟨s, c⟩ := x
    cases i with
    | zero => simp [assembleOk]
    | succ j =>
      have h' : j < rest.length := by simpa using h
      simpa [assembleOk] using ih _ _ j h'

theorem assembleOk_getD_clipStart_succ (xs : List (Segment × ℚ)) :
    ∀ (t : ℚ) (pe : Option ℚ) (i : ℕ), i + 1 < xs.length →
      ((assembleOk t pe xs).getD (i + 1) ⟨0, 0, 0⟩).clipStart
        = ((assembleOk t pe xs).getD i ⟨0, 0, 0⟩).clipStart
          + ((assembleOk t pe xs).getD i ⟨0, 0, 0⟩).clipDur
          + ((assembleOk t pe xs).getD (i + 1) ⟨0, 0, 0⟩).sil := by
  induction xs with
  | nil => intro t pe i h; simp at h
  | cons x rest ih =>
    intro t pe i h
    obtain ⟨s, c⟩ := x
    cases i with
    | zero =>
      match rest, h with
      | (s2, c2) :: r, _ => simp [assembleOk]
    | succ j =>
      have h' : j + 1 < rest.length := by simpa using h
      simpa [assembleOk] using ih _ _ j h'

theorem max_zero_eq_ite (a : ℚ) : max 0 a = if 0 < a then a else 0 := by
  rcases le_or_lt a 0 with h | h
  · rw [max_eq_left h, if_neg (not_lt.mpr h)]
  · rw [max_eq_right h.le, if_pos h]

/-- C1: For every ordered sequence of translated segments with synthesized
clips, the assembler prepends silence of duration `segment[0].start` before
the first clip's audio exactly when `segment[0].start > 0`; before each
subsequent clip `i+1` it inserts silence of duration
`segment[i+1].start - segment[i].end` when that gap is positive and no
silence when the gap is zero or negative; and it concatenates the clips
back-to-back with no trimming: each clip contributes its full rendered
duration, and each clip starts exactly where the previous clip's audio ended
plus the inserted silence.  (Durations in milliseconds, times in seconds,
hence the factor 1000.) -/
theorem assembler_silence_insertion (xs : List (Segment × ℚ)) (h0 : 0 < xs.length) :
    (assemble xs).length = xs.length
    ∧ ((assemble xs).getD 0 ⟨0, 0, 0⟩).sil
        = (if 0 < (xs.getD 0 (⟨0, 0⟩, 0)).1.start
            then 1000 * (xs.getD 0 (⟨0, 0⟩, 0)).1.start else 0)
    ∧ (∀ i, i + 1 < xs.length →
        ((assemble xs).getD (i + 1) ⟨0, 0, 0⟩).sil
          = (if 0 < (xs.getD (i + 1) (⟨0, 0⟩, 0)).1.start - (xs.getD i (⟨0, 0⟩, 0)).1.stop
              then 1000 * ((xs.getD (i + 1) (⟨0, 0⟩, 0)).1.start
                - (xs.getD i (⟨0, 0⟩, 0)).1.stop)
              else 0))
    ∧ (∀ i, i < xs.length →
        ((assemble xs).getD i ⟨0, 0, 0⟩).clipDur = (xs.getD i (⟨0, 0⟩, 0)).2)
    ∧ (∀ i, i + 1 < xs.length →
        ((assemble xs).getD (i + 1) ⟨0, 0, 0⟩).clipStart
          = ((assemble xs).getD i ⟨0, 0, 0⟩).clipStart
            + ((assemble xs).getD i ⟨0, 0, 0⟩).clipDur
            + ((assemble xs).getD (i + 1) ⟨0, 0, 0⟩).sil) := by
  refine ⟨assembleOk_length xs 0 none, ?_, ?_, ?_, ?_⟩
  · match xs, h0 with
    | (s, c) :: rest, _ =>
      have hiff : (0 < 1000 * s.start) ↔ (0 < s.start) := by
        constructor <;> intro hh <;> nlinarith
      simp only [assemble, assembleOk, List.getD_cons_zero]
      simp [hiff]
  · intro i hi
    simp only [assemble]
    rw [assembleOk_getD_sil_succ xs 0 none i hi]
    rw [show 1000 * (xs.getD (i + 1) (⟨0, 0⟩, 0)).1.start
          - 1000 * (xs.getD i (⟨0, 0⟩, 0)).1.stop
        = 1000 * ((xs.getD (i + 1) (⟨0, 0⟩, 0)).1.start
          - (xs.getD i (⟨0, 0⟩, 0)).1.stop) from by ring]
    rw [max_zero_eq_ite]
    have hiff : (0 < 1000 * ((xs.getD (i + 1) (⟨0, 0⟩, 0)).1.start
        - (xs.getD i (⟨0, 0⟩, 0)).1.stop))
        ↔ (0 < (xs.getD (i + 1) (⟨0, 0⟩, 0)).1.start - (xs.getD i (⟨0, 0⟩, 0)).1.stop) := by
      constructor <;> intro hh <;> nlinarith
    simp [hiff]
  · intro i hi; exact assembleOk_getD_clipDur xs 0 none i hi
  · intro i hi; exact assembleOk_getD_clipStart_succ xs 0 none i hi

theorem assembler_silence_insertion_witness :
    (assemble [(⟨1, 2⟩, 700), (⟨2, 4⟩, 1500)]).length
      = ([(⟨1, 2⟩, 700), (⟨2, 4⟩, 1500)] : List (Segment × ℚ)).length :=
  (assembler_silence_insertion [(⟨1, 2⟩, 700), (⟨2, 4⟩, 1500)] (by decide)).1

theorem sum_map_sil_add_clipDur (l : List Step) :
    (l.map (fun st => st.sil + st.clipDur)).sum
      = (l.map Step.sil).sum + (l.map Step.clipDur).sum := by
  induction l with
  | nil => simp
  | cons a l ih => simp [ih]; ring

theorem assembleOk_sum_sorted (xs : List (Segment × ℚ)) :
    ∀ (x : Segment × ℚ) (t p : ℚ),
      p ≤ 1000 * x.1.start →
      (∀ i, i + 1 < (x :: xs).length →
        ((x :: xs).getD i (⟨0, 0⟩, 0)).1.stop ≤ ((x :: xs).getD (i + 1) (⟨0, 0⟩, 0)).1.start) →
      ((assembleOk t (some p) (x :: xs)).map (fun st => st.sil + st.clipDur)).sum
        = 1000 * ((x :: xs).getLastD (⟨0, 0⟩, 0)).1.stop - p + overrunSum (x :: xs) := by
  induction xs with
  | nil =>
    intro x t p hp _
    obtain ⟨s, c⟩ := x
    have hmax : max 0 (1000 * s.start - p) = 1000 * s.start - p :=
      max_eq_right (by linarith)
    simp [assembleOk, overrunSum, hmax]
    ring
  | cons y rest ih =>
    intro x t p hp hsort
    obtain ⟨s, c⟩ := x
    have h0 : s.stop ≤ y.1.start := by
      have := hsort 0 (by simp)
      simpa using this
    have hsort' : ∀ i, i + 1 < (y :: rest).length →
        ((y :: rest).getD i (⟨0, 0⟩, 0)).1.stop
          ≤ ((y :: rest).getD (i + 1) (⟨0, 0⟩, 0)).1.start := by
      intro i hi
      have := hsort (i + 1) (by simpa using Nat.succ_lt_succ hi)
      simpa using this
    have hrec := ih y (t + max 0 (1000 * s.start - p) + c) (1000 * s.stop)
      (by linarith) hsort'
    have hmax : max 0 (1000 * s.start - p) = 1000 * s.start - p :=
      max_eq_right (by linarith)
    simp only [assembleOk, List.map_cons, List.sum_cons, List.getLastD_cons,
      overrunSum] at hrec ⊢
    rw [hmax] at hrec ⊢
    linarith [hrec]

theorem assembleOk_none_eq_some_zero (s : Segment) (c : ℚ) (xs : List (Segment × ℚ))
    (t : ℚ) (h : 0 ≤ s.start) :
    assembleOk t none ((s, c) :: xs) = assembleOk t (some 0) ((s, c) :: xs) := by
  have hsil : (if 1000 * s.start > 0 then 1000 * s.start else 0 : ℚ)
      = max 0 (1000 * s.start - 0) := by
    rcases h.lt_or_eq with h' | h'
    · rw [if_pos (by nlinarith), max_eq_right (by nlinarith)]
      ring
    · rw [if_neg (by nlinarith), max_eq_left (by nlinarith)]
  simp only [assembleOk, hsil]

/-- C2 (amended): the assembled track's total duration equals the sum of all
inserted silences plus the sum of the rendered durations of all clips
(additivity), with no implicit cap or trim; and for every non-overlapping,
ascending-order segment list it equals the last segment's end plus the sum
over all clips of (rendered duration − declared target duration) — i.e. the
over-runs of every clip accumulate, not only the trailing clip's. -/
theorem assembled_track_duration :
    (∀ ys : List (Segment × ℚ),
      totalDuration ys
        = ((assemble ys).map Step.sil).sum + ((assemble ys).map Step.clipDur).sum)
    ∧ (∀ (x : Segment × ℚ) (xs : List (Segment × ℚ)),
        0 ≤ x.1.start →
        (∀ i, i + 1 < (x :: xs).length →
          ((x :: xs).getD i (⟨0, 0⟩, 0)).1.stop
            ≤ ((x :: xs).getD (i + 1) (⟨0, 0⟩, 0)).1.start) →
        totalDuration (x :: xs)
          = 1000 * ((x :: xs).getLastD (⟨0, 0⟩, 0)).1.stop + overrunSum (x :: xs)) := by
  constructor
  · exact fun ys => sum_map_sil_add_clipDur _
  · intro x xs hstart hsort
    obtain ⟨s, c⟩ := x
    unfold totalDuration assemble
    rw [assembleOk_none_eq_some_zero s c xs 0 (by simpa using hstart)]
    rw [assembleOk_sum_sorted xs (s, c) 0 0 (by nlinarith [hstart]) hsort]
    ring

theorem assembled_track_duration_witness :
    totalDuration [(⟨0, 2⟩, 2000), (⟨2, 4⟩, 2000)]
      = 1000 * (([(⟨0, 2⟩, 2000), (⟨2, 4⟩, 2000)] : List (Segment × ℚ)).getLastD
            (⟨0, 0⟩, 0)).1.stop
        + overrunSum [(⟨0, 2⟩, 2000), (⟨2, 4⟩, 2000)] :=
  assembled_track_duration.2 (⟨0, 2⟩, 2000) [(⟨2, 4⟩, 2000)] (by norm_num)
    (by
      intro i hi
      simp only [List.length_cons, List.length_nil] at hi
      have hz : i = 0 := by omega
      subst hz
      simp)

/-- C2 counterexample: the segment list `[0,1], [1,2]` is non-overlapping
and ascending, the first clip over-runs its window by 2000 ms and the last
clip exactly fills its window (no trailing over-run), yet the assembled
track lasts 4000 ms ≠ 2000 ms = last segment's end + trailing over-run.
The claim's "last end + trailing clip over-run" formula fails because the
earlier clip's over-run also accumulates. -/
theorem assembled_track_duration_counterexample :
    (0 : ℚ) ≤ 0
    ∧ (1 : ℚ) ≤ 1
    ∧ totalDuration [(⟨0, 1⟩, 3000), (⟨1, 2⟩, 1000)] = 4000
    ∧ 1000 * (2 : ℚ) + (1000 - 1000 * (2 - 1)) = 2000
    ∧ (4000 : ℚ) ≠ 2000 := by
  refine ⟨le_refl _, le_refl _, ?_, by norm_num, by norm_num⟩
  norm_num [totalDuration, assemble, assembleOk]

theorem assembleOk_map_sil_congr (xs : List (Segment × ℚ)) :
    ∀ (ys : List (Segment × ℚ)) (t t' : ℚ) (pe : Option ℚ),
      xs.map Prod.fst = ys.map Prod.fst →
      (assembleOk t pe xs).map Step.sil = (assembleOk t' pe ys).map Step.sil := by
  induction xs with
  | nil =>
    intro ys t t' pe h
    cases ys with
    | nil => rfl
    | cons y r => simp at h
  | cons x rest ih =>
    intro ys t t' pe h
    cases ys with
    | nil => simp at h
    | cons y r =>
      obtain ⟨s, c⟩ := x
      obtain ⟨s2, c2⟩ := y
      simp only [List.map_cons, List.cons.injEq] at h
      obtain ⟨hs, hrest⟩ := h
      subst hs
      simp only [assembleOk, List.map_cons, List.cons.injEq]
      exact ⟨trivial, ih r _ _ _ hrest⟩

/-- C3: the silence inserted before each clip depends only on the declared
segment boundaries, never on the rendered duration of any clip — two runs
on segment lists with the same boundaries but different rendered clip
durations insert identical silences; consequently an over-long clip's
drift is never corrected: whenever every clip's rendered duration is at
least its declared target duration, the drift of the clips' actual start
positions relative to their declared starts is monotonically
non-decreasing along the list. -/
theorem gap_uses_declared_boundaries :
    (∀ xs ys : List (Segment × ℚ), xs.map Prod.fst = ys.map Prod.fst →
      (assemble xs).map Step.sil = (assemble ys).map Step.sil)
    ∧ (∀ xs : List (Segment × ℚ),
        (∀ j, j < xs.length →
          1000 * ((xs.getD j (⟨0, 0⟩, 0)).1.stop - (xs.getD j (⟨0, 0⟩, 0)).1.start)
            ≤ (xs.getD j (⟨0, 0⟩, 0)).2) →
        ∀ i, i + 1 < xs.length → drift xs i ≤ drift xs (i + 1)) := by
  constructor
  · intro xs ys h
    exact assembleOk_map_sil_congr xs ys 0 0 none h
  · intro xs h i hi
    have hstart := assembleOk_getD_clipStart_succ xs 0 none i hi
    have hsil := assembleOk_getD_sil_succ xs 0 none i hi
    have hdur := assembleOk_getD_clipDur xs 0 none i (Nat.lt_of_succ_lt hi)
    have hover := h i (Nat.lt_of_succ_lt hi)
    have hm : 1000 * (xs.getD (i + 1) (⟨0, 0⟩, 0)).1.start
        - 1000 * (xs.getD i (⟨0, 0⟩, 0)).1.stop
        ≤ max 0 (1000 * (xs.getD (i + 1) (⟨0, 0⟩, 0)).1.start
            - 1000 * (xs.getD i (⟨0, 0⟩, 0)).1.stop) := le_max_right _ _
    simp only [drift, assemble] at *
    rw [hstart, hsil, hdur]
    linarith

theorem gap_uses_declared_boundaries_witness :
    (assemble [(⟨0, 1⟩, 2500), (⟨2, 3⟩, 1000)]).map Step.sil
        = (assemble [(⟨0, 1⟩, 100), (⟨2, 3⟩, 999)]).map Step.sil
    ∧ drift [(⟨0, 1⟩, 2500), (⟨2, 3⟩, 1000)] 0 ≤ drift [(⟨0, 1⟩, 2500), (⟨2, 3⟩, 1000)] 1 :=
  ⟨gap_uses_declared_boundaries.1 _ _ (by simp),
    gap_uses_declared_boundaries.2 _
      (by
        intro j hj
        simp only [List.length_cons, List.length_nil] at hj
        interval_cases j <;> norm_num)
      0 (by simp)⟩

theorem exceptMap_isOk {ε α β : Type} (r : Except ε α) (f : α → β) :
    (r.map f).isOk = r.isOk := by
  cases r <;> rfl

theorem assembleExc_isOk (xs : List (Segment × Option ℚ)) :
    ∀ (i : ℕ) (t : ℚ) (pe : Option ℚ),
      (assembleExc i t pe xs).isOk = xs.all (fun x => x.2.isSome) := by
  induction xs with
  | nil => intro i t pe; rfl
  | cons x rest ih =>
    intro i t pe
    obtain ⟨s, c?⟩ := x
    cases c? with
    | none => simp [assembleExc, Except.isOk, Except.toBool]
    | some c =>
      simp only [assembleExc, exceptMap_isOk]
      rw [ih]
      simp

theorem except_error_form (r : Except TtsError (List Step)) (h : r.isOk = false) :
    ∃ j, r = .error (.synthesisMissing j) := by
  cases r with
  | error e =>
    cases e with
    | synthesisMissing j => exact ⟨j, rfl⟩
  | ok steps => simp [Except.isOk, Except.toBool] at h

/-- C4: if the synthesized clip for any referenced segment was not
produced, assembly fails with the synthesis-missing failure — the
assembler never returns a combined track built from only the successfully
synthesized clips, so the per-clip synthesis failure is not masked. -/
theorem missing_clip_aborts_assembly (xs : List (Segment × Option ℚ))
    (h : ∃ x ∈ xs, x.2 = none) :
    (∃ j, assembleExc 0 0 none xs = .error (.synthesisMissing j))
    ∧ ∀ steps, assembleExc 0 0 none xs ≠ .ok steps := by
  have hfalse : (assembleExc 0 0 none xs).isOk = false := by
    rw [assembleExc_isOk]
    rcases h with ⟨x, hx, hx2⟩
    by_contra hc
    rw [Bool.not_eq_false, List.all_eq_true] at hc
    have := hc x hx
    rw [hx2] at this
    simp at this
  obtain ⟨j, hj⟩ := except_error_form _ hfalse
  refine ⟨⟨j, hj⟩, fun steps hs => ?_⟩
  rw [hs] at hfalse
  simp [Except.isOk, Except.toBool] at hfalse

theorem missing_clip_aborts_assembly_witness :
    assembleExc 0 0 none [(⟨0, 1⟩, some 500), (⟨1, 2⟩, none)] ≠ .ok [] :=
  (missing_clip_aborts_assembly [(⟨0, 1⟩, some 500), (⟨1, 2⟩, none)]
    ⟨(⟨1, 2⟩, none), by simp, rfl⟩).2 []

/-! ## Lemmas about the pipeline orchestrator -/

theorem isEmpty_map {α β : Type} (f : α → β) (l : List α) :
    (l.map f).isEmpty = l.isEmpty := by
  cases l <;> rfl

/-- Every run with an existing input ends in a manifest or an error record
whose stage field is the literal the code stores and whose timestamp is the
run's; a run with a missing input ends with no record at all. -/
theorem run_pipeline_total (env : PipelineEnv) (now : String) :
    (env.inputExists = false ∧ run_pipeline env now = .noRecord)
    ∨ (env.inputExists = true
        ∧ ((∃ ks, run_pipeline env now = .manifest ks)
          ∨ (∃ e, run_pipeline env now = .errorRecord e
              ∧ e.stage = ("unknown") ∧ e.timestamp = now))) := by
  cases hIn : env.inputExists with
  | false =>
    refine Or.inl ⟨rfl, ?_⟩
    unfold run_pipeline
    rw [hIn]
    rfl
  | true =>
    refine Or.inr ⟨rfl, ?_⟩
    unfold run_pipeline
    rw [hIn]
    cases hE : env.extractAudio with
    | none => exact Or.inr ⟨_, rfl, rfl, rfl⟩
    | some a =>
      cases hT : env.transcribe with
      | none => exact Or.inr ⟨_, rfl, rfl, rfl⟩
      | some pr =>
        obtain ⟨tp, segs⟩ := pr
        cases hSe : segs.isEmpty with
        | true =>
          simp only [hSe]
          exact Or.inr ⟨_, rfl, rfl, rfl⟩
        | false =>
          simp only [hSe, translate_segments, isEmpty_map]
          cases hG : generate_speech_from_segments env.synth
              (segs.map (fun s => ⟨s.start, s.stop, s.text,
                translate_text env.translateOracle s.text⟩)) with
          | none =>
            simp only [hG]
            exact Or.inr ⟨_, rfl, rfl, rfl⟩
          | some st =>
            simp only [hG]
            cases hA : env.align with
            | none => exact Or.inr ⟨_, rfl, rfl, rfl⟩
            | some v =>
              cases hV : validate_output env.validateInternal with
              | none => exact Or.inl ⟨_, rfl⟩
              | some r =>
                simp only [hV]
                exact Or.inl ⟨_, rfl⟩

/-- C7 (amended): once the input video file exists, every completed run
produces exactly one of the success manifest and the error record — never
both and never neither; when the input video file does not exist, the run
returns before creating anything and writes neither record. -/
theorem exactly_one_record_when_input_exists (env : PipelineEnv) (now : String)
    (hIn : env.inputExists = true) :
    ((∃ ks, run_pipeline env now = .manifest ks)
        ∨ (∃ e, run_pipeline env now = .errorRecord e))
    ∧ run_pipeline env now ≠ .noRecord
    ∧ ¬((∃ ks, run_pipeline env now = .manifest ks)
        ∧ (∃ e, run_pipeline env now = .errorRecord e)) := by
  rcases run_pipeline_total env now with ⟨hf, _⟩ | ⟨_, hcase⟩
  · rw [hIn] at hf; cases hf
  · refine ⟨?_, ?_, ?_⟩
    · rcases hcase with ⟨ks, h⟩ | ⟨e, h, _, _⟩
      · exact Or.inl ⟨ks, h⟩
      · exact Or.inr ⟨e, h⟩
    · rcases hcase with ⟨ks, h⟩ | ⟨e, h, _, _⟩ <;> rw [h] <;> simp
    · rintro ⟨⟨ks, h1⟩, ⟨e, h2⟩⟩
      rw [h1] at h2
      simp at h2

theorem exactly_one_record_when_input_exists_witness :
    run_pipeline
      { inputExists := true, extractAudio := none, transcribe := none,
        translateOracle := fun _ => none, synth := fun _ => none, align := none,
        validateInternal := .error ("x") } ("ts") ≠ .noRecord :=
  (exactly_one_record_when_input_exists _ ("ts") rfl).2.1

/-- C7 counterexample: when the input video file does not exist,
`run_pipeline` returns `None` before entering the `try` block
(main.py lines 64-66), so neither a manifest nor an error record is
written — refuting "never neither ... including the case where the input
video file does not exist". -/
theorem exactly_one_record_counterexample :
    run_pipeline
      { inputExists := false, extractAudio := none, transcribe := none,
        translateOracle := fun _ => none, synth := fun _ => none, align := none,
        validateInternal := .error ("x") } ("ts") = .noRecord := rfl

/-- C8 (amended): every error record written on a fatal stage failure
contains the exception message, a timestamp and the manifest of the stage
outputs completed before the failure, but its stage field is always the
literal string `unknown` — even when the failure maps to one of the six
stages (main.py line 165 hard-codes `"stage": "unknown"`). -/
theorem error_record_stage_always_unknown (env : PipelineEnv) (now : String) (e : ErrorLog)
    (h : run_pipeline env now = .errorRecord e) :
    e.stage = ("unknown") ∧ e.timestamp = now := by
  rcases run_pipeline_total env now with ⟨_, hn⟩ | ⟨_, ⟨ks, hm⟩ | ⟨e2, he, hs, ht⟩⟩
  · rw [h] at hn; simp at hn
  · rw [h] at hm; simp at hm
  · rw [h] at he
    injection he with h3
    subst h3
    exact ⟨hs, ht⟩

theorem error_record_stage_always_unknown_witness :
    (⟨("Audio extraction failed"), ("unknown"), ("ts"),
        [("input_video"), ("output_dir")]⟩ : ErrorLog).stage = ("unknown")
    ∧ (⟨("Audio extraction failed"), ("unknown"), ("ts"),
        [("input_video"), ("output_dir")]⟩ : ErrorLog).timestamp = ("ts") :=
  error_record_stage_always_unknown
    { inputExists := true, extractAudio := none, transcribe := none,
      translateOracle := fun _ => none, synth := fun _ => none, align := none,
      validateInternal := .error ("x") } ("ts") _ rfl

theorem generate_speech_none_of_missing (synth : String → Option ℚ) (tsegs : List TrSeg)
    (h : ∃ t ∈ tsegs, t.translated = none) :
    generate_speech_from_segments synth tsegs = none := by
  have hmem : ∃ x ∈ tsegs.map (fun t => ((⟨t.start, t.stop⟩ : Segment), clipFor synth t)),
      x.2 = none := by
    rcases h with ⟨t, ht, ht2⟩
    refine ⟨(⟨t.start, t.stop⟩, clipFor synth t), List.mem_map_of_mem _ ht, ?_⟩
    simp [clipFor, ht2]
  have hfalse : (assembleExc 0 0 none
      (tsegs.map (fun t => (⟨t.start, t.stop⟩, clipFor synth t)))).isOk = false := by
    rw [assembleExc_isOk]
    rcases hmem with ⟨x, hx, hx2⟩
    by_contra hc
    rw [Bool.not_eq_false, List.all_eq_true] at hc
    have := hc x hx
    rw [hx2] at this
    simp at this
  obtain ⟨j, hj⟩ := except_error_form _ hfalse
  unfold generate_speech_from_segments
  rw [hj]

/-- C5 (amended): a failure of the per-segment translate call is NOT fatal
to the Translate stage: `translate_segments` still succeeds, recording a
null translated text for the failed segment, and the pipeline continues
past translation to the synthesis stage — the run then fails there (the
null text yields no clip and speech generation fails), so the error
record names the speech stage, never the translation stage. -/
theorem translate_failure_not_fatal (env : PipelineEnv) (now tp : String)
    (segs : List TransSeg)
    (hIn : env.inputExists = true)
    (hE : env.extractAudio ≠ none)
    (hT : env.transcribe = some (tp, segs))
    (hSe : segs ≠ [])
    (hO : ∃ s ∈ segs, env.translateOracle s.text = none) :
    translate_segments env.translateOracle segs
      = some (segs.map (fun s => ⟨s.start, s.stop, s.text, env.translateOracle s.text⟩))
    ∧ run_pipeline env now
        = .errorRecord ⟨("Speech generation failed"), ("unknown"), now,
            [("input_video"), ("output_dir"), ("extracted_audio"), ("transcript"),
              ("translation")]⟩ := by
  refine ⟨rfl, ?_⟩
  obtain ⟨a, hE'⟩ := Option.ne_none_iff_exists'.mp hE
  have hSe' : segs.isEmpty = false := by
    cases segs with
    | nil => exact absurd rfl hSe
    | cons s r => rfl
  have hG : generate_speech_from_segments env.synth
      (segs.map (fun s => ⟨s.start, s.stop, s.text, translate_text env.translateOracle s.text⟩))
      = none := by
    apply generate_speech_none_of_missing
    rcases hO with ⟨s, hs, hs2⟩
    exact ⟨⟨s.start, s.stop, s.text, translate_text env.translateOracle s.text⟩,
      List.mem_map_of_mem _ hs, by simp [translate_text, hs2]⟩
  unfold run_pipeline
  rw [hIn, hE', hT]
  simp only [hSe', translate_segments, isEmpty_map, hG, Bool.false_eq_true, if_false]
  rfl

/-- C5 counterexample: with one transcript segment whose translation call
fails, `translate_segments` succeeds with a null translated text and the
run proceeds to synthesis, where it fails — the error record says the
speech stage failed, not the translation stage, refuting "aborts the
Translate stage". -/
theorem translate_failure_not_fatal_counterexample :
    translate_segments (fun _ => none) [⟨0, 1, ("ni")⟩]
        = some [⟨0, 1, ("ni"), none⟩]
    ∧ run_pipeline
        { inputExists := true, extractAudio := some ("a"),
          transcribe := some (("t"), [⟨0, 1, ("ni")⟩]),
          translateOracle := fun _ => none, synth := fun _ => some 500,
          align := some ("v"), validateInternal := .ok ("r") } ("ts")
      = .errorRecord ⟨("Speech generation failed"), ("unknown"), ("ts"),
          [("input_video"), ("output_dir"), ("extracted_audio"), ("transcript"),
            ("translation")]⟩ := ⟨rfl, rfl⟩

theorem translate_failure_not_fatal_witness :
    run_pipeline
      { inputExists := true, extractAudio := some ("a"),
        transcribe := some (("t"), [⟨0, 1, ("ni")⟩]),
        translateOracle := fun _ => none, synth := fun _ => some 500,
        align := some ("v"), validateInternal := .ok ("r") } ("ts")
      = .errorRecord ⟨("Speech generation failed"), ("unknown"), ("ts"),
          [("input_video"), ("output_dir"), ("extracted_audio"), ("transcript"),
            ("translation")]⟩ :=
  (translate_failure_not_fatal _ ("ts") ("t") [⟨0, 1, ("ni")⟩] rfl
    (fun h => Option.noConfusion h) rfl (by simp)
    ⟨⟨0, 1, ("ni")⟩, by simp, rfl⟩).2

/-- C6: if every stage through mux succeeds but the validation stage fails
internally (its body throws, so `validate_output` returns `None`), the run
still writes a success manifest whose key set lacks `validation_report`,
and never writes an error record — validation is advisory. -/
theorem validate_failure_still_success (env : PipelineEnv) (now tp msg : String)
    (segs : List TransSeg)
    (hIn : env.inputExists = true)
    (hE : env.extractAudio ≠ none)
    (hT : env.transcribe = some (tp, segs))
    (hSe : segs ≠ [])
    (hG : generate_speech_from_segments env.synth
        (segs.map (fun s => ⟨s.start, s.stop, s.text, translate_text env.translateOracle s.text⟩))
        ≠ none)
    (hA : env.align ≠ none)
    (hV : env.validateInternal = .error msg) :
    run_pipeline env now
      = .manifest [("input_video"), ("output_dir"), ("extracted_audio"), ("transcript"),
          ("translation"), ("indonesian_speech"), ("speech_segments"), ("output_video"),
          ("metadata")]
    ∧ ("validation_report") ∉ [("input_video"), ("output_dir"), ("extracted_audio"),
          ("transcript"), ("translation"), ("indonesian_speech"), ("speech_segments"),
          ("output_video"), ("metadata")]
    ∧ ∀ e, run_pipeline env now ≠ .errorRecord e := by
  obtain ⟨a, hE'⟩ := Option.ne_none_iff_exists'.mp hE
  obtain ⟨st, hG'⟩ := Option.ne_none_iff_exists'.mp hG
  obtain ⟨v, hA'⟩ := Option.ne_none_iff_exists'.mp hA
  have hSe' : segs.isEmpty = false := by
    cases segs with
    | nil => exact absurd rfl hSe
    | cons s r => rfl
  have hm : run_pipeline env now
      = .manifest [("input_video"), ("output_dir"), ("extracted_audio"), ("transcript"),
          ("translation"), ("indonesian_speech"), ("speech_segments"), ("output_video"),
          ("metadata")] := by
    unfold run_pipeline
    rw [hIn, hE', hT]
    simp only [hSe', translate_segments, isEmpty_map, hG', hA', hV,
      Bool.false_eq_true, if_false]
    rfl
  refine ⟨hm, by decide, fun e he => ?_⟩
  rw [hm] at he
  simp at he

theorem validate_failure_still_success_witness :
    run_pipeline
      { inputExists := true, extractAudio := some ("a"),
        transcribe := some (("t"), [⟨0, 1, ("ni")⟩]),
        translateOracle := fun _ => some ("halo"), synth := fun _ => some 800,
        align := some ("v"), validateInternal := .error ("boom") } ("ts")
      = .manifest [("input_video"), ("output_dir"), ("extracted_audio"), ("transcript"),
          ("translation"), ("indonesian_speech"), ("speech_segments"), ("output_video"),
          ("metadata")] :=
  (validate_failure_still_success _ ("ts") ("t") ("boom") [⟨0, 1, ("ni")⟩] rfl
    (fun h => Option.noConfusion h) rfl (by simp)
    (fun h => Option.noConfusion h) (fun h => Option.noConfusion h) rfl).1

/-- C8 counterexample: a failure of the audio-extraction stage maps to
stage 1 of the six stages, yet the written error record's stage field is
the literal `unknown`, refuting "the stage name is unknown only when the
failure does not map to one of the six stages". -/
theorem error_record_stage_counterexample :
    run_pipeline
      { inputExists := true, extractAudio := none, transcribe := none,
        translateOracle := fun _ => none, synth := fun _ => none, align := none,
        validateInternal := .error ("x") } ("ts")
      = .errorRecord ⟨("Audio extraction failed"), ("unknown"), ("ts"),
          [("input_video"), ("output_dir")]⟩ := rfl

/-! ## Lemmas about the validator -/

theorem timingDiffs_length (o : List Segment) :
    ∀ d : List Segment, (timingDiffs o d).length = min o.length d.length := by
  induction o with
  | nil => intro d; simp [timingDiffs]
  | cons x os ih =>
    intro d
    cases d with
    | nil => simp [timingDiffs]
    | cons y ds => simp [timingDiffs, ih, Nat.succ_min_succ]

theorem timingDiffs_getD (o : List Segment) :
    ∀ (d : List Segment) (i : ℕ), i < min o.length d.length →
      (timingDiffs o d).getD i 0
        = (|(o.getD i ⟨0, 0⟩).start - (d.getD i ⟨0, 0⟩).start|
          + |(o.getD i ⟨0, 0⟩).stop - (d.getD i ⟨0, 0⟩).stop|) / 2 := by
  induction o with
  | nil => intro d i h; simp at h
  | cons x os ih =>
    intro d i h
    cases d with
    | nil => simp at h
    | cons y ds =>
      cases i with
      | zero => simp [timingDiffs]
      | succ j =>
        have h' : j < min os.length ds.length := by
          simp only [List.length_cons, Nat.succ_min_succ] at h
          omega
        simpa [timingDiffs] using ih ds j h'

theorem foldl_max_spec (l : List ℚ) :
    ∀ a : ℚ,
      (l.foldl max a = a ∨ l.foldl max a ∈ l)
      ∧ a ≤ l.foldl max a
      ∧ ∀ x ∈ l, x ≤ l.foldl max a := by
  induction l with
  | nil => intro a; exact ⟨Or.inl rfl, le_refl a, by simp⟩
  | cons b l ih =>
    intro a
    obtain ⟨hmem, hle, hall⟩ := ih (max a b)
    simp only [List.foldl_cons]
    refine ⟨?_, le_trans (le_max_left a b) hle, ?_⟩
    · rcases hmem with h | h
      · rcases max_choice a b with hc | hc
        · exact Or.inl (h.trans hc)
        · exact Or.inr (by rw [h, hc]; exact List.mem_cons_self b l)
      · exact Or.inr (List.mem_cons_of_mem b h)
    · intro x hx
      rcases List.mem_cons.mp hx with rfl | hx'
      · exact le_trans (le_max_right a x) hle
      · exact hall x hx'

theorem foldl_min_spec (l : List ℚ) :
    ∀ a : ℚ,
      (l.foldl min a = a ∨ l.foldl min a ∈ l)
      ∧ l.foldl min a ≤ a
      ∧ ∀ x ∈ l, l.foldl min a ≤ x := by
  induction l with
  | nil => intro a; exact ⟨Or.inl rfl, le_refl a, by simp⟩
  | cons b l ih =>
    intro a
    obtain ⟨hmem, hle, hall⟩ := ih (min a b)
    simp only [List.foldl_cons]
    refine ⟨?_, le_trans hle (min_le_left a b), ?_⟩
    · rcases hmem with h | h
      · rcases min_choice a b with hc | hc
        · exact Or.inl (h.trans hc)
        · exact Or.inr (by rw [h, hc]; exact List.mem_cons_self b l)
      · exact Or.inr (List.mem_cons_of_mem b h)
    · intro x hx
      rcases List.mem_cons.mp hx with rfl | hx'
      · exact le_trans hle (min_le_right a x)
      · exact hall x hx'

/-- C9: the validator pairs segments positionally by list index; exactly
the prefix of `min` length is scored (excess originals are silently
unscored when the re-transcription is shorter); each pair's deviation is
the mean of the absolute start- and end-time differences; and the
reported metrics are the average, maximum and minimum over those per-pair
deviations. -/
theorem validator_positional_pairing (original dubbed : List Segment) :
    (timingDiffs original dubbed).length = min original.length dubbed.length
    ∧ (∀ i, i < min original.length dubbed.length →
        (timingDiffs original dubbed).getD i 0
          = (|(original.getD i ⟨0, 0⟩).start - (dubbed.getD i ⟨0, 0⟩).start|
            + |(original.getD i ⟨0, 0⟩).stop - (dubbed.getD i ⟨0, 0⟩).stop|) / 2)
    ∧ (dubbed.length < original.length →
        (timingDiffs original dubbed).length = dubbed.length)
    ∧ (timingDiffs original dubbed = [] → measure_audio_sync original dubbed = none)
    ∧ (∀ m, measure_audio_sync original dubbed = some m →
        m.average = (timingDiffs original dubbed).sum
            / ((timingDiffs original dubbed).length : ℚ)
        ∧ (m.maxDiff ∈ timingDiffs original dubbed
            ∧ ∀ x ∈ timingDiffs original dubbed, x ≤ m.maxDiff)
        ∧ (m.minDiff ∈ timingDiffs original dubbed
            ∧ ∀ x ∈ timingDiffs original dubbed, m.minDiff ≤ x)
        ∧ m.compared = (timingDiffs original dubbed).length) := by
  refine ⟨timingDiffs_length original dubbed, timingDiffs_getD original dubbed, ?_, ?_, ?_⟩
  · intro h
    rw [timingDiffs_length original dubbed]
    exact Nat.min_eq_right h.le
  · intro h
    unfold measure_audio_sync
    rw [h]
  · intro m hm
    unfold measure_audio_sync at hm
    cases hd : timingDiffs original dubbed with
    | nil => rw [hd] at hm; simp at hm
    | cons d ds =>
      rw [hd] at hm
      have hm' : (⟨(d :: ds).sum / ((d :: ds).length : ℚ), ds.foldl max d,
          ds.foldl min d, (d :: ds).length⟩ : SyncMetrics) = m := Option.some.inj hm
      subst hm'
      obtain ⟨hmaxMem, hmaxLe, hmaxAll⟩ := foldl_max_spec ds d
      obtain ⟨hminMem, hminLe, hminAll⟩ := foldl_min_spec ds d
      refine ⟨rfl, ⟨?_, ?_⟩, ⟨?_, ?_⟩, rfl⟩
      · rcases hmaxMem with h | h
        · rw [h]; exact List.mem_cons_self d ds
        · exact List.mem_cons_of_mem d h
      · intro x hx
        rcases List.mem_cons.mp hx with rfl | hx'
        · exact hmaxLe
        · exact hmaxAll x hx'
      · rcases hminMem with h | h
        · rw [h]; exact List.mem_cons_self d ds
        · exact List.mem_cons_of_mem d h
      · intro x hx
        rcases List.mem_cons.mp hx with rfl | hx'
        · exact hminLe
        · exact hminAll x hx'

theorem validator_positional_pairing_witness :
    (timingDiffs [⟨0, 2⟩, ⟨2, 4⟩] [⟨1, 4⟩]).length
        = min ([⟨0, 2⟩, ⟨2, 4⟩] : List Segment).length ([⟨1, 4⟩] : List Segment).length
    ∧ (timingDiffs [⟨0, 2⟩, ⟨2, 4⟩] [⟨1, 4⟩]).getD 0 0
        = (|(([⟨0, 2⟩, ⟨2, 4⟩] : List Segment).getD 0 ⟨0, 0⟩).start
              - (([⟨1, 4⟩] : List Segment).getD 0 ⟨0, 0⟩).start|
            + |(([⟨0, 2⟩, ⟨2, 4⟩] : List Segment).getD 0 ⟨0, 0⟩).stop
              - (([⟨1, 4⟩] : List Segment).getD 0 ⟨0, 0⟩).stop|) / 2 :=
  ⟨(validator_positional_pairing _ _).1,
    (validator_positional_pairing _ _).2.1 0 (by simp)⟩

/-- C10: the lexical overlap score is total and lies in `[0, 1]`: both
divisions are guarded by word-count checks, the score is 0 whenever the
hypothesis or the reference has no words, the match count never exceeds
the hypothesis word count, and the length-ratio penalty is clamped to at
most 1. -/
theorem bleu_score_total (reference hypothesis : String) :
    0 ≤ calculate_bleu_score reference hypothesis
    ∧ calculate_bleu_score reference hypothesis ≤ 1
    ∧ bleu_matches reference hypothesis ≤ (pywords hypothesis).length
    ∧ brevity_penalty reference hypothesis ≤ 1
    ∧ (pywords hypothesis = [] → calculate_bleu_score reference hypothesis = 0)
    ∧ (pywords reference = [] → calculate_bleu_score reference hypothesis = 0) := by
  have hm : bleu_matches reference hypothesis ≤ (pywords hypothesis).length :=
    List.length_filter_le _ _
  have hp0 : 0 ≤ bleu_precision reference hypothesis := by
    unfold bleu_precision
    split
    · positivity
    · exact le_refl 0
  have hp1 : bleu_precision reference hypothesis ≤ 1 := by
    unfold bleu_precision
    split
    · refine div_le_one_of_le₀ ?_ (by positivity)
      exact_mod_cast hm
    · norm_num
  have hb0 : 0 ≤ brevity_penalty reference hypothesis := by
    unfold brevity_penalty
    split
    · exact le_min (by norm_num) (by positivity)
    · exact le_refl 0
  have hb1 : brevity_penalty reference hypothesis ≤ 1 := by
    unfold brevity_penalty
    split
    · exact min_le_left _ _
    · norm_num
  refine ⟨mul_nonneg hb0 hp0, mul_le_one₀ hb1 hp0 hp1, hm, hb1, ?_, ?_⟩
  · intro h
    unfold calculate_bleu_score bleu_precision
    rw [h]
    simp
  · intro h
    unfold calculate_bleu_score brevity_penalty
    rw [h]
    simp

theorem bleu_score_total_witness :
    calculate_bleu_score ("x") ("") = 0
    ∧ calculate_bleu_score ("a b") ("a") ≤ 1 :=
  ⟨(bleu_score_total ("x") ("")).2.2.2.2.1 rfl, (bleu_score_total ("a b") ("a")).2.1⟩

end Dubbing
